import Mathlib

/-!
Shallow embedding of the chai-rs text editor core (src/components/text_block.rs,
src/components/editor.rs, src/core/extended_linked_list.rs, src/chai.rs).
A Rope is modelled as a character list indexed by character offset; the shared
document content (an ExtendedLinkedList of Rope) is a list of such lines.
Fallible Rust paths (anyhow errors and list panics that the engine guards
against) are modelled with Option.
-/

namespace Chai

/-- Coords from src/core/coords.rs: a logical (x, y) position. -/
structure Coords where
  x : Nat
  y : Nat
deriving DecidableEq, Repr

/-- TermSize from src/chai.rs: terminal window width and height. -/
structure TermSize where
  width : Nat
  height : Nat
deriving DecidableEq, Repr

/-- Mode from src/components/text_block.rs. -/
inductive Mode where
  | normal
  | insert
  | command
deriving DecidableEq, Repr

/-- TextBlockEvent from src/components/text_block.rs: the edit intents a
TextBlock emits to its owner. -/
inductive TextBlockEvent where
  | char (c : Char)
  | newLine
  | delete
deriving DecidableEq, Repr

/-- The crossterm key modifiers the source matches on (NONE, SHIFT, CONTROL
are distinguished; every other combination falls into the catch-all arm). -/
inductive KeyModifiers where
  | none
  | shift
  | control
  | other
deriving DecidableEq, Repr

/-- The crossterm key codes the source matches on; `other` stands for every
code the engine treats as a no-op. -/
inductive KeyCode where
  | char (c : Char)
  | left
  | right
  | up
  | down
  | enter
  | backspace
  | esc
  | other
deriving DecidableEq, Repr

/-- The crossterm events TextBlock::update and Editor::update match on. -/
inductive Event where
  | key (mods : KeyModifiers) (code : KeyCode)
  | paste
  | other
deriving DecidableEq, Repr

/-- TextBlock from src/components/text_block.rs. The `content` raw pointer is
modelled by the pointed-to list of lines itself; each line is a list of
characters (Rope indexed by character offset). -/
structure TextBlock where
  lines : List (List Char)
  offset : Coords
  size : Coords
  cursor : Coords
  position : Coords
  mode : Mode
deriving DecidableEq, Repr

/-! ## ExtendedLinkedList operations (src/core/extended_linked_list.rs) -/

/-- ExtendedLinkedList::push_at: split_off(index), push_back(element), append.
The result places `a` at position `i`. LinkedList::split_off requires
`i ≤ l.length`; both call sites in the source (new_line) satisfy it because
the cursor row is in range. -/
def push_at (l : List α) (i : Nat) (a : α) : List α :=
  l.take i ++ a :: l.drop i

/-- ExtendedLinkedList::remove_at: split_off(index), pop_front, append back.
Yields the removed element and the remaining list; at or past the end there
is nothing to pop (the source then reports absence). -/
def remove_at (l : List α) (i : Nat) : Option (α × List α) :=
  match l[i]? with
  | Option.none => Option.none
  | some a => some (a, l.take i ++ l.drop (i + 1))

/-! ## Word tokenization (WORD_REGEX in src/components/text_block.rs)

WORD_REGEX matches one or more word characters, or one or more characters
that are neither word characters nor whitespace. captures_iter yields the
successive non-overlapping maximal matches from left to right, which are
exactly the maximal runs of same-class non-whitespace characters. -/

/-- A word character in the sense of regex backslash-w: alphanumeric or
underscore. -/
def isWordChar (c : Char) : Bool :=
  c.isAlphanum || c = '_'

/-- Character classification induced by WORD_REGEX: `some true` for word
characters, `some false` for visible punctuation, `none` for whitespace
(which matches neither alternative). -/
def charClass (c : Char) : Option Bool :=
  if isWordChar c then some true
  else if c.isWhitespace then Option.none
  else some false

/-- The list of matches of WORD_REGEX over a line starting at absolute
offset `i`: each match is its half-open character range (start, stop).
Mirrors captures_iter: whitespace is skipped, a match extends over the
maximal run of characters of the same class. -/
def word_regex_tokens : List Char → Nat → List (Nat × Nat)
  | [], _ => []
  | c :: rest, i =>
    match charClass c with
    | Option.none => word_regex_tokens rest (i + 1)
    | some k =>
      let run := rest.takeWhile (fun d => charClass d = some k)
      (i, i + 1 + run.length) ::
        word_regex_tokens (rest.drop run.length) (i + 1 + run.length)
termination_by l _ => l.length
decreasing_by
  · simp
  · simp [List.length_drop]
    omega

/-! ## Word-motion lookups (src/components/text_block.rs lines 202-302)

Each lookup takes the data it reads from self: the line list and the raw
cursor. They return Option exactly where the source returns Option. -/

/-- TextBlock::get_prev_word_start, factored over the current line and the
raw cursor column: slice the line from 0 to the cursor column (the slice
lookup yields nothing when the column exceeds the line length), run
WORD_REGEX over the slice, and take the start of the last match. -/
def get_prev_word_start (line : List Char) (x : Nat) : Option Nat :=
  if x ≤ line.length then
    ((word_regex_tokens (line.take x) 0).getLast?).map Prod.fst
  else
    Option.none

/-- TextBlock::get_next_word_end over the current line and raw cursor column:
skip matches ending at or before the column; on the first remaining match
take stop - 1, unless that equals the column, in which case take stop - 1 of
the following match. -/
def get_next_word_end (line : List Char) (x : Nat) : Option Nat :=
  match (word_regex_tokens line 0).dropWhile (fun t => t.2 ≤ x) with
  | [] => Option.none
  | t :: rest =>
    let word_end := t.2 - 1
    if word_end = x then rest.head?.map (fun u => u.2 - 1)
    else some word_end

/-- TextBlock::get_next_word_start over the current line and raw cursor
column: same skip (on match stop offsets), then the start of the first
remaining match, with the same skip-ahead when already there. -/
def get_next_word_start (line : List Char) (x : Nat) : Option Nat :=
  match (word_regex_tokens line 0).dropWhile (fun t => t.2 ≤ x) with
  | [] => Option.none
  | t :: rest =>
    let word_start := t.1
    if word_start = x then rest.head?.map (fun u => u.1)
    else some word_start

/-- TextBlock::get_first_word_end_at_line: the first match of WORD_REGEX on
line `n`, minus one from its stop offset; absence when the line is missing
or has no match. -/
def get_first_word_end_at_line (lines : List (List Char)) (n : Nat) : Option Nat :=
  match lines[n]? with
  | Option.none => Option.none
  | some line => ((word_regex_tokens line 0).head?).map (fun t => t.2 - 1)

/-- TextBlock::get_first_word_start_at_line: the start of the first match of
WORD_REGEX on line `n`. -/
def get_first_word_start_at_line (lines : List (List Char)) (n : Nat) : Option Nat :=
  match lines[n]? with
  | Option.none => Option.none
  | some line => ((word_regex_tokens line 0).head?).map Prod.fst

/-- TextBlock::get_last_word_start_at_line: the start of the last match of
WORD_REGEX on line `n`. -/
def get_last_word_start_at_line (lines : List (List Char)) (n : Nat) : Option Nat :=
  match lines[n]? with
  | Option.none => Option.none
  | some line => ((word_regex_tokens line 0).getLast?).map Prod.fst

/-- get_prev_word_start as called on self: current line taken at the raw
cursor row, sliced at the raw cursor column. -/
def get_prev_word_start_tb (s : TextBlock) : Option Nat :=
  match s.lines[s.cursor.y]? with
  | Option.none => Option.none
  | some line => get_prev_word_start line s.cursor.x

/-- get_next_word_end as called on self. -/
def get_next_word_end_tb (s : TextBlock) : Option Nat :=
  match s.lines[s.cursor.y]? with
  | Option.none => Option.none
  | some line => get_next_word_end line s.cursor.x

/-- get_next_word_start as called on self. -/
def get_next_word_start_tb (s : TextBlock) : Option Nat :=
  match s.lines[s.cursor.y]? with
  | Option.none => Option.none
  | some line => get_next_word_start line s.cursor.x

/-! ## Cursor reads and edit operations (src/components/text_block.rs) -/

/-- TextBlock::get_cursor_pos: the raw row is passed through; the raw column
is clamped at read time to the current line length. Fails (anyhow error)
when the raw row has no line. -/
def get_cursor_pos (s : TextBlock) : Option (Nat × Nat) :=
  match s.lines[s.cursor.y]? with
  | Option.none => Option.none
  | some line => some (min s.cursor.x line.length, s.cursor.y)

/-- TextBlock::get_line_len. -/
def get_line_len (lines : List (List Char)) (i : Nat) : Option Nat :=
  (lines[i]?).map List.length

/-- TextBlock::goto_line: jump to a row, clamped to the last existing row
(saturating when the list is empty). -/
def goto_line (s : TextBlock) (line_number : Nat) : TextBlock :=
  { s with cursor := ⟨s.cursor.x, min line_number (s.lines.length - 1)⟩ }

/-- TextBlock::subtract_cursor_pos: the backspace target position, computed
from the clamped cursor position by the four-way case split of the source.
All subtraction saturates at zero. -/
def subtract_cursor_pos (lines : List (List Char)) (pos : Nat × Nat) : Nat × Nat :=
  match pos with
  | (0, 0) => (0, 0)
  | (0, y) => (((get_line_len lines (y - 1)).getD 0) - 1, y - 1)
  | (x, 0) => (x - 1, 0)
  | (x, y) => (x - 1, y)

/-- TextBlock::append_to_prev_line: remove the line at the raw cursor row and
append its content onto the line above; a no-op at row zero. Fails when the
removal or the lookup of the previous line reports absence. -/
def append_to_prev_line (lines : List (List Char)) (cursor_y : Nat) :
    Option (List (List Char)) :=
  if cursor_y = 0 then some lines
  else
    match remove_at lines cursor_y with
    | Option.none => Option.none
    | some (removed_line, rest) =>
      match rest[cursor_y - 1]? with
      | Option.none => Option.none
      | some prev_line => some (rest.set (cursor_y - 1) (prev_line ++ removed_line))

/-- TextBlock::new_line: split the current line at the clamped cursor column
(an empty new line when the cursor sits at or past the end), insert the tail
as a new line below, and move the cursor to the start of that line. -/
def new_line (s : TextBlock) : Option TextBlock :=
  match get_cursor_pos s with
  | Option.none => Option.none
  | some (cursor_x, cursor_y) =>
    match s.lines[cursor_y]? with
    | Option.none => Option.none
    | some line =>
      if cursor_x < line.length then
        -- Rope::try_split_off truncates the line in place and returns the tail
        some { s with
          lines := push_at (s.lines.set cursor_y (line.take cursor_x))
                     (cursor_y + 1) (line.drop cursor_x),
          cursor := ⟨0, s.cursor.y + 1⟩ }
      else
        some { s with
          lines := push_at s.lines (cursor_y + 1) ([]),
          cursor := ⟨0, s.cursor.y + 1⟩ }

/-- TextBlock::delete (backspace). Compute the clamped position and the
target from subtract_cursor_pos; when the clamped column is positive remove
the character just left of it on the current row; when the target row is
above the current row, recompute the final column as the length of the
destination line before the merge and join the two lines; finally store the
target column and row into the cursor. -/
def delete (s : TextBlock) : Option TextBlock :=
  match get_cursor_pos s with
  | Option.none => Option.none
  | some (cursor_x, cursor_y) =>
    let target := subtract_cursor_pos s.lines (cursor_x, cursor_y)
    let step1 : Option (List (List Char)) :=
      if 0 < cursor_x then
        match s.lines[cursor_y]? with
        | Option.none => Option.none
        | some line =>
          -- Rope::try_remove over the range [cursor_x - 1, cursor_x)
          some (s.lines.set cursor_y (line.take (cursor_x - 1) ++ line.drop cursor_x))
      else some s.lines
    match step1 with
    | Option.none => Option.none
    | some lines1 =>
      if target.2 < cursor_y then
        match lines1[target.2]? with
        | Option.none => Option.none
        | some dest_line =>
          match append_to_prev_line lines1 s.cursor.y with
          | Option.none => Option.none
          | some lines2 =>
            some { s with lines := lines2, cursor := ⟨dest_line.length, target.2⟩ }
      else
        some { s with lines := lines1, cursor := ⟨target.1, target.2⟩ }

/-- TextBlock::add_char: splice a character into the current line at the
clamped cursor column (the cursor itself is advanced by the Editor caller,
not here). -/
def add_char (s : TextBlock) (c : Char) : Option TextBlock :=
  match get_cursor_pos s with
  | Option.none => Option.none
  | some (cursor_index, line_index) =>
    match s.lines[line_index]? with
    | Option.none => Option.none
    | some line =>
      some { s with
        lines := s.lines.set line_index (line.take cursor_index ++ c :: line.drop cursor_index) }

/-! ## Key handling (TextBlock::handle_key, src/components/text_block.rs
lines 304-427). The source is one match over (modifiers, code, mode); it is
embedded here as one helper per arm plus a dispatcher, preserving the arm
conditions and their order (the original arms are pairwise disjoint once the
key code, the modifiers, the mode and the character are fixed, so grouping
by key code first does not change which arm fires). Each piece returns the
new state together with the optional emitted TextBlockEvent; the catch-all
arm of the source keeps the state and emits nothing. -/

/-- Arm (NONE, Left, _) and (NONE, Char h, Normal): column moves one left,
saturating, then clamped to the last character (an empty line clamps to 0). -/
def move_left (s : TextBlock) : Option (TextBlock × Option TextBlockEvent) :=
  match s.lines[s.cursor.y]? with
  | Option.none => Option.none
  | some line =>
    some ({ s with cursor := ⟨min (s.cursor.x - 1) (line.length - 1), s.cursor.y⟩ },
          Option.none)

/-- Arm (NONE, Right, _) and (NONE, Char l, Normal): column moves one right
clamped to the line length, then is kept at least the previous column. -/
def move_right (s : TextBlock) : Option (TextBlock × Option TextBlockEvent) :=
  match s.lines[s.cursor.y]? with
  | Option.none => Option.none
  | some line =>
    some ({ s with
            cursor := ⟨max (min (s.cursor.x + 1) line.length) s.cursor.x,
                       s.cursor.y⟩ },
          Option.none)

/-- Arm (NONE, Char b, Normal): previous word start on the current line, or
the last word start on the line above (no-op at row zero or when that lookup
reports absence). -/
def b_motion (s : TextBlock) : Option (TextBlock × Option TextBlockEvent) :=
  match get_prev_word_start_tb s with
  | some prev_start =>
    some ({ s with cursor := ⟨prev_start, s.cursor.y⟩ }, Option.none)
  | Option.none =>
    if s.cursor.y = 0 then some (s, Option.none)
    else
      match get_last_word_start_at_line s.lines (s.cursor.y - 1) with
      | Option.none => some (s, Option.none)
      | some prev_line_start =>
        some ({ s with cursor := ⟨prev_line_start, s.cursor.y - 1⟩ }, Option.none)

/-- Arm (NONE, Char e, Normal): next word end on the current line, or the
first word end on the line below (no-op when that lookup reports absence). -/
def e_motion (s : TextBlock) : Option (TextBlock × Option TextBlockEvent) :=
  match get_next_word_end_tb s with
  | some word_end =>
    some ({ s with cursor := ⟨word_end, s.cursor.y⟩ }, Option.none)
  | Option.none =>
    match get_first_word_end_at_line s.lines (s.cursor.y + 1) with
    | Option.none => some (s, Option.none)
    | some next_word_end =>
      some ({ s with cursor := ⟨next_word_end, s.cursor.y + 1⟩ }, Option.none)

/-- Arm (NONE, Char w, Normal): next word start on the current line, or the
first word start on the line below, or (failing both) the next word end on
the current line as fallback. -/
def w_motion (s : TextBlock) : Option (TextBlock × Option TextBlockEvent) :=
  match get_next_word_start_tb s with
  | some word_start =>
    some ({ s with cursor := ⟨word_start, s.cursor.y⟩ }, Option.none)
  | Option.none =>
    match get_first_word_start_at_line s.lines (s.cursor.y + 1) with
    | some next_word_start =>
      some ({ s with cursor := ⟨next_word_start, s.cursor.y + 1⟩ }, Option.none)
    | Option.none =>
      match get_next_word_end_tb s with
      | Option.none => some (s, Option.none)
      | some current_word_end =>
        some ({ s with cursor := ⟨current_word_end, s.cursor.y⟩ }, Option.none)

/-- The Char arms of TextBlock::handle_key, in source order. In Normal mode:
h, l, k, j (movement, NONE modifiers), then colon with any modifiers, then
i, b, e, w (NONE modifiers). In Insert mode with NONE or SHIFT modifiers
any character is emitted as an edit intent. Everything else is the
catch-all no-op. -/
def handle_char_key (s : TextBlock) (mods : KeyModifiers) (c : Char) :
    Option (TextBlock × Option TextBlockEvent) :=
  match s.mode with
  | .normal =>
    if mods = .none ∧ c = 'h' then move_left s
    else if mods = .none ∧ c = 'l' then move_right s
    else if mods = .none ∧ c = 'k' then some (goto_line s (s.cursor.y - 1), Option.none)
    else if mods = .none ∧ c = 'j' then some (goto_line s (s.cursor.y + 1), Option.none)
    else if c = ':' then some ({ s with mode := .command }, Option.none)
    else if mods = .none ∧ c = 'i' then some ({ s with mode := .insert }, Option.none)
    else if mods = .none ∧ c = 'b' then b_motion s
    else if mods = .none ∧ c = 'e' then e_motion s
    else if mods = .none ∧ c = 'w' then w_motion s
    else some (s, Option.none)
  | .insert =>
    if mods = .none ∨ mods = .shift then some (s, some (.char c))
    else some (s, Option.none)
  | .command => some (s, Option.none)

/-- TextBlock::handle_key: dispatch on the key code. Arrow keys move in any
mode with NONE modifiers; Esc with NONE modifiers leaves Insert or Command
mode; Enter and Backspace with NONE modifiers emit edit intents in Insert
mode; character keys go through handle_char_key; all else is a no-op. -/
def handle_key (s : TextBlock) (mods : KeyModifiers) (code : KeyCode) :
    Option (TextBlock × Option TextBlockEvent) :=
  match code with
  | .left =>
    if mods = .none then move_left s else some (s, Option.none)
  | .right =>
    if mods = .none then move_right s else some (s, Option.none)
  | .up =>
    if mods = .none then some (goto_line s (s.cursor.y - 1), Option.none)
    else some (s, Option.none)
  | .down =>
    if mods = .none then some (goto_line s (s.cursor.y + 1), Option.none)
    else some (s, Option.none)
  | .char c => handle_char_key s mods c
  | .esc =>
    match s.mode with
    | .insert =>
      if mods = .none then some ({ s with mode := .normal }, Option.none)
      else some (s, Option.none)
    | .command =>
      if mods = .none then some ({ s with mode := .normal }, Option.none)
      else some (s, Option.none)
    | .normal => some (s, Option.none)
  | .enter =>
    match s.mode with
    | .insert =>
      if mods = .none then some (s, some .newLine) else some (s, Option.none)
    | _ => some (s, Option.none)
  | .backspace =>
    match s.mode with
    | .insert =>
      if mods = .none then some (s, some .delete) else some (s, Option.none)
    | _ => some (s, Option.none)
  | .other => some (s, Option.none)

/-- TextBlock::update: only key events reach handle_key; paste and every
other event kind are no-ops. -/
def tb_update (s : TextBlock) (e : Event) : Option (TextBlock × Option TextBlockEvent) :=
  match e with
  | .key mods code => handle_key s mods code
  | .paste => some (s, Option.none)
  | .other => some (s, Option.none)

/-! ## Editor (src/components/editor.rs) -/

/-- Editor::update_command: in Command mode only Esc is handled (back to
Normal); every other key and event is a no-op. Modifiers are ignored. -/
def update_command (s : TextBlock) (e : Event) : TextBlock :=
  match e with
  | .key _ code =>
    match code with
    | .char _ => s
    | .enter => s
    | .esc => { s with mode := .normal }
    | .backspace => s
    | _ => s
  | .paste => s
  | .other => s

/-- Editor::update: Command mode is routed to update_command; otherwise the
TextBlock handles the key and the Editor applies the emitted edit intent
(insert character then advance the clamped column by one, split line, or
backspace). -/
def editor_update (s : TextBlock) (e : Event) : Option TextBlock :=
  match s.mode with
  | .command => some (update_command s e)
  | _ =>
    match tb_update s e with
    | Option.none => Option.none
    | some (s1, ev) =>
      match ev with
      | some (.char c) =>
        match add_char s1 c with
        | Option.none => Option.none
        | some s2 =>
          match get_cursor_pos s2 with
          | Option.none => Option.none
          | some cursor_position => some { s2 with cursor := ⟨cursor_position.1 + 1, s2.cursor.y⟩ }
      | some .newLine => new_line s1
      | some .delete => delete s1
      | Option.none => some s1

/-! ## Viewport scrolling (src/components/text_block.rs lines 118-154) -/

/-- TextBlock::get_effective_size: the requested size clipped to the space
remaining in the window past the screen position, per axis; the source then
converts both to u16, which fails above 65535. -/
def get_effective_size (s : TextBlock) (window_size : TermSize) : Option (Nat × Nat) :=
  let effective_width := min (s.size.x + s.position.x) window_size.width - s.position.x
  let effective_height := min (s.size.y + s.position.y) window_size.height - s.position.y
  if effective_width ≤ 65535 ∧ effective_height ≤ 65535 then
    some (effective_width, effective_height)
  else Option.none

/-- TextBlock::scroll: one-step vertical follow of the cursor (down by one
when the cursor is below the window, up by one when it is above), then the
horizontal offset fully recomputed from the raw cursor column and the
current line length. -/
def scroll (s : TextBlock) (window_size : TermSize) : Option TextBlock :=
  match get_effective_size s window_size with
  | Option.none => Option.none
  | some (window_width, window_height) =>
    let oy1 := if window_height - 1 < s.cursor.y - s.offset.y
               then s.offset.y + 1 else s.offset.y
    let oy2 := if (s.cursor.y + 1) - oy1 = 0 then oy1 - 1 else oy1
    match s.lines[s.cursor.y]? with
    | Option.none => Option.none
    | some current_line =>
      let offset_cursor := s.cursor.x - window_width
      let offset_current_line := current_line.length - window_width
      some { s with offset := ⟨min offset_cursor offset_current_line, oy2⟩ }

/-! ## Initialization (src/chai.rs lines 38-62, src/core/document.rs) -/

/-- The line decomposition produced by str::lines in Rust: split on the
newline character, dropping one trailing empty fragment (a carriage return
before a newline would also be stripped; the claims only involve texts
without carriage returns). The empty string yields no lines at all. -/
def rust_str_lines (text : List Char) : List (List Char) :=
  let parts := text.splitOn '\n'
  if parts.getLast? = some [] then parts.dropLast else parts

/-- Chai::new / Document::new content construction: with a file, the decoded
text is split into lines; with no file, a single empty line. -/
def chai_new_content (file_text : Option (List Char)) : List (List Char) :=
  match file_text with
  | some text => rust_str_lines text
  | Option.none => [[]]

/-- A finite sequence of vertical motions: the `k`/Up and `j`/Down keys. -/
inductive VerticalKey where
  | up
  | down
deriving DecidableEq, Repr

/-- The key code sent for a vertical motion. -/
def vertical_key_code : VerticalKey → KeyCode
  | .up => KeyCode.up
  | .down => KeyCode.down

/-- Apply a finite sequence of up and down motions through handle_key with no
modifiers. The up and down arms of handle_key never fail, so the fallback
branch (state kept unchanged, as an error aborts key handling before any
mutation) is unreachable here. -/
def apply_vertical_moves (s : TextBlock) : List VerticalKey → TextBlock
  | [] => s
  | k :: ks =>
    match handle_key s KeyModifiers.none (vertical_key_code k) with
    | some (s1, _) => apply_vertical_moves s1 ks
    | Option.none => apply_vertical_moves s ks

/-! ## Helper lemmas -/

theorem push_at_zero (l : List α) (a : α) : push_at l 0 a = a :: l := by
  simp [push_at]

theorem push_at_cons_succ (x : α) (l : List α) (i : Nat) (a : α) :
    push_at (x :: l) (i + 1) a = x :: push_at l i a := by
  simp [push_at]

theorem push_at_set (l : List α) (y : Nat) (a b : α) (hy : y < l.length) :
    push_at (l.set y a) (y + 1) b = l.take y ++ [a] ++ [b] ++ l.drop (y + 1) := by
  induction l generalizing y with
  | nil => simp at hy
  | cons c tl ih =>
    cases y with
    | zero => simp [push_at]
    | succ y =>
      have hy2 : y < tl.length := by simpa using hy
      have := ih y hy2
      simp only [List.set_cons_succ, push_at_cons_succ, this, List.take_succ_cons,
        List.drop_succ_cons]
      simp

theorem remove_at_zero (x : α) (l : List α) : remove_at (x :: l) 0 = some (x, l) := by
  simp [remove_at]

theorem remove_at_cons_succ (x : α) (l : List α) (i : Nat) :
    remove_at (x :: l) (i + 1) = (remove_at l i).map (fun p => (p.1, x :: p.2)) := by
  cases h : l[i]? with
  | none => simp [remove_at, h]
  | some a => simp [remove_at, h]

theorem remove_at_push_at (l : List α) (i : Nat) (a : α) (h : i ≤ l.length) :
    remove_at (push_at l i a) i = some (a, l) := by
  induction i generalizing l with
  | zero => simp [push_at_zero, remove_at_zero]
  | succ i ih =>
    cases l with
    | nil => simp at h
    | cons x tl =>
      have h2 : i ≤ tl.length := by simpa using h
      simp [push_at_cons_succ, remove_at_cons_succ, ih tl h2]

theorem getElem?_push_at_self (l : List α) (i : Nat) (a : α) (h : i ≤ l.length) :
    (push_at l i a)[i]? = some a := by
  induction i generalizing l with
  | zero => simp [push_at_zero]
  | succ i ih =>
    cases l with
    | nil => simp at h
    | cons x tl =>
      have h2 : i ≤ tl.length := by simpa using h
      simp [push_at_cons_succ, ih tl h2]

theorem getElem?_push_at_lt (l : List α) (i j : Nat) (a : α) (h : j < i)
    (hi : i ≤ l.length) :
    (push_at l i a)[j]? = l[j]? := by
  induction j generalizing l i with
  | zero =>
    cases i with
    | zero => omega
    | succ i =>
      cases l with
      | nil => simp at hi
      | cons x tl => simp [push_at_cons_succ]
  | succ j ih =>
    cases i with
    | zero => omega
    | succ i =>
      cases l with
      | nil => simp at hi
      | cons x tl =>
        have : i ≤ tl.length := by simpa using hi
        simp [push_at_cons_succ, ih tl i (by omega) this]

theorem set_getElem?_eq (l : List α) (n : Nat) (x : α) (h : l[n]? = some x) :
    l.set n x = l := by
  induction l generalizing n with
  | nil => simp at h
  | cons c tl ih =>
    cases n with
    | zero => simp at h; simp [h]
    | succ n =>
      simp only [List.getElem?_cons_succ] at h
      simp [ih n h]

theorem subtract_pos_x (L : List (List Char)) (x y : Nat) (hx : 0 < x) :
    subtract_cursor_pos L (x, y) = (x - 1, y) := by
  cases x with
  | zero => omega
  | succ x => cases y <;> rfl

theorem set_middle_of_removed (l : List α) (y : Nat) (b : α)
    (hlen : y + 1 < l.length) :
    (l.take (y + 1) ++ l.drop (y + 2)).set y b =
      l.take y ++ [b] ++ l.drop (y + 2) := by
  induction l generalizing y with
  | nil => simp at hlen
  | cons c tl ih =>
    cases y with
    | zero => simp
    | succ y =>
      have h2 : y + 1 < tl.length := by simpa using hlen
      simp only [List.take_succ_cons, List.drop_succ_cons, List.cons_append,
        List.set_cons_succ, ih y h2]

/-! ## Tokenization lemmas: every match start is at or after the base
offset, and tokenizing a prefix of the line keeps exactly the match starts
that lie strictly inside the prefix. -/

theorem tokens_nil (i : Nat) : word_regex_tokens [] i = [] := by
  simp [word_regex_tokens]

theorem tokens_cons_none (c : Char) (rest : List Char) (i : Nat)
    (h : charClass c = Option.none) :
    word_regex_tokens (c :: rest) i = word_regex_tokens rest (i + 1) := by
  simp [word_regex_tokens, h]

theorem tokens_cons_some (c : Char) (rest : List Char) (i : Nat) (k : Bool)
    (h : charClass c = some k) :
    word_regex_tokens (c :: rest) i =
      (i, i + 1 + (rest.takeWhile (fun d => charClass d = some k)).length) ::
        word_regex_tokens
          (rest.drop (rest.takeWhile (fun d => charClass d = some k)).length)
          (i + 1 + (rest.takeWhile (fun d => charClass d = some k)).length) := by
  simp [word_regex_tokens, h]

theorem tokens_start_ge : ∀ (l : List Char) (i : Nat), ∀ t ∈ word_regex_tokens l i,
    i ≤ t.1 := by
  intro l i
  induction l, i using word_regex_tokens.induct with
  | case1 i => simp [tokens_nil]
  | case2 c rest i h ih =>
    intro t ht
    rw [tokens_cons_none c rest i h] at ht
    have := ih t ht
    omega
  | case3 c rest i k h run ih =>
    intro t ht
    rw [tokens_cons_some c rest i k h] at ht
    rcases List.mem_cons.mp ht with rfl | ht2
    · simp
    · have := ih t ht2
      omega

theorem tokens_filter_lt_nil (l : List Char) (i x : Nat) (hx : x ≤ i) :
    (word_regex_tokens l i).filter (fun t => t.1 < x) = [] := by
  apply List.filter_eq_nil_iff.mpr
  intro t ht
  have := tokens_start_ge l i t ht
  simp
  omega

theorem takeWhile_take (p : α → Bool) : ∀ (l : List α) (n : Nat),
    (l.take n).takeWhile p = (l.takeWhile p).take n := by
  intro l
  induction l with
  | nil => intro n; simp
  | cons c tl ih =>
    intro n
    cases n with
    | zero => simp
    | succ n =>
      simp only [List.take_succ_cons]
      by_cases hp : p c
      · simp [List.takeWhile_cons, hp, ih n]
      · simp [List.takeWhile_cons, hp]

/-- Tokenizing the first x characters of a line yields exactly the match
starts of the full tokenization that are strictly below the base offset
plus x: matches ending at or before the cut survive unchanged, the match
straddling the cut is truncated but keeps its start, and later matches
disappear. -/
theorem tokens_take : ∀ (l : List Char) (i : Nat), ∀ (x : Nat),
    (word_regex_tokens (l.take x) i).map Prod.fst =
      ((word_regex_tokens l i).filter (fun t => t.1 < i + x)).map Prod.fst := by
  intro l i
  induction l, i using word_regex_tokens.induct with
  | case1 i =>
    intro x
    simp [tokens_nil]
  | case2 c rest i h ih =>
    intro x
    cases x with
    | zero =>
      rw [List.take_zero, tokens_nil, tokens_filter_lt_nil _ _ _ (by omega)]
    | succ x =>
      rw [List.take_succ_cons, tokens_cons_none c _ i h, tokens_cons_none c rest i h, ih x]
      have harith : i + 1 + x = i + (x + 1) := by omega
      rw [harith]
  | case3 c rest i k h run ih =>
    intro x
    cases x with
    | zero =>
      rw [List.take_zero, tokens_nil, tokens_filter_lt_nil _ _ _ (by omega)]
    | succ x =>
      rw [List.take_succ_cons, tokens_cons_some c _ i k h, tokens_cons_some c rest i k h]
      rw [takeWhile_take, List.length_take]
      by_cases hcase : (rest.takeWhile (fun d => charClass d = some k)).length < x
      · rw [Nat.min_eq_right (Nat.le_of_lt hcase)]
        rw [List.drop_take]
        rw [List.map_cons, List.filter_cons_of_pos (by simp)]
        rw [List.map_cons]
        have hIH := ih (x - (rest.takeWhile (fun d => charClass d = some k)).length)
        have hb : (i + 1 + (rest.takeWhile (fun d => charClass d = some k)).length) +
            (x - (rest.takeWhile (fun d => charClass d = some k)).length) = i + (x + 1) := by
          omega
        rw [hb] at hIH
        exact congrArg (List.cons i) hIH
      · rw [Nat.min_eq_left (by omega)]
        rw [List.drop_take, Nat.sub_self, List.take_zero, tokens_nil]
        rw [List.map_cons, List.filter_cons_of_pos (by simp)]
        rw [tokens_filter_lt_nil _ _ _ (by omega)]
        rfl

/-! ## Claim theorems -/

/-- C1 (code bug evidence): initializing from a file whose decoded text is
empty supplies an empty line sequence to the Document, which then has zero
lines — violating the spec invariant that the Document always holds at
least one line. The source str::lines yields no fragments on the empty
string, and neither Chai::new nor Document::new guards against it. -/
theorem c1_empty_file_zero_lines : (chai_new_content (some [])).length = 0 := by
  decide

/-- C2: backspace follows the exact case split on the clamped cursor (the
spec reads cursor columns clamped to the line length, so the cursor is
observed through get_cursor_pos): at (0, 0) the Document is unchanged and
the clamped cursor stays (0, 0); with a positive clamped column x the single
character left of the cursor is removed and the cursor becomes (x - 1) on
the same row; at column 0 on a positive row the original row is removed, its
content is appended onto the row above, and the cursor lands at the
destination length measured before the join. -/
theorem c2_backspace_case_split (s : TextBlock) (x y : Nat)
    (hpos : get_cursor_pos s = some (x, y)) :
    (x = 0 ∧ y = 0 → delete s = some { s with cursor := ⟨0, 0⟩ }) ∧
    (∀ line, s.lines[y]? = some line → 0 < x →
      delete s = some { s with
        lines := s.lines.set y (line.take (x - 1) ++ line.drop x),
        cursor := ⟨x - 1, y⟩ }) ∧
    (∀ line prev, s.lines[y]? = some line → s.lines[y - 1]? = some prev →
      x = 0 → 0 < y →
      delete s = some { s with
        lines := s.lines.take (y - 1) ++ [prev ++ line] ++ s.lines.drop (y + 1),
        cursor := ⟨prev.length, y - 1⟩ }) := by
  have hy' : s.cursor.y = y := by
    rcases hl : s.lines[s.cursor.y]? with _ | l0
    · simp [get_cursor_pos, hl] at hpos
    · simp [get_cursor_pos, hl] at hpos
      exact hpos.2
  refine ⟨?_, ?_, ?_⟩
  · rintro ⟨hx0, hy0⟩
    subst hx0
    subst hy0
    simp [delete, hpos, subtract_cursor_pos]
  · intro line hline hx
    have hsub := subtract_pos_x s.lines x y hx
    simp only [delete, hpos, hsub, if_pos hx, hline]
    simp [Nat.lt_irrefl]
  · intro line prev hline hprev hx0 hypos
    subst hx0
    cases y with
    | zero => omega
    | succ y =>
      have hlen : y + 1 < s.lines.length := (List.getElem?_eq_some_iff.mp hline).1
      have hprev2 : s.lines[y]? = some prev := by simpa using hprev
      have happ : append_to_prev_line s.lines (y + 1) =
          some (s.lines.take y ++ [prev ++ line] ++ s.lines.drop (y + 2)) := by
        unfold append_to_prev_line
        rw [if_neg (Nat.succ_ne_zero y)]
        simp only [remove_at, hline, Nat.add_sub_cancel]
        have hrest : (s.lines.take (y + 1) ++ s.lines.drop (y + 1 + 1))[y]? =
            some prev := by
          rw [List.getElem?_append_left (by simp [List.length_take]; omega),
            List.getElem?_take]
          rw [if_pos (Nat.lt_succ_self y)]
          exact hprev2
        simp only [hrest]
        exact congrArg some (set_middle_of_removed s.lines y (prev ++ line) hlen)
      have hsub : subtract_cursor_pos s.lines (0, y + 1) =
          (((get_line_len s.lines y).getD 0) - 1, y) := rfl
      simp only [delete, hpos, hsub, Nat.lt_irrefl, if_false]
      simp only [Nat.lt_succ_self, if_pos, hprev2, Nat.add_sub_cancel]
      rw [hy']
      simp only [happ]

/-- C2 witness: on the single line ab with raw cursor column 2, backspace
removes the character b and moves the cursor to column 1. -/
theorem c2_backspace_case_split_witness :
    delete ⟨[['a', 'b']], ⟨0, 0⟩, ⟨9, 9⟩, ⟨2, 0⟩, ⟨0, 0⟩, Mode.insert⟩ =
      some ⟨[['a']], ⟨0, 0⟩, ⟨9, 9⟩, ⟨1, 0⟩, ⟨0, 0⟩, Mode.insert⟩ := by
  have h := c2_backspace_case_split
    ⟨[['a', 'b']], ⟨0, 0⟩, ⟨9, 9⟩, ⟨2, 0⟩, ⟨0, 0⟩, Mode.insert⟩ 2 0 (by decide)
  have h2 := h.2.1 ['a', 'b'] (by decide) (by decide)
  simpa using h2

/-- Computation of backspace immediately after an Enter that was pressed at
the end of a line: the inserted empty row below is removed again and the two
rows merge back. -/
theorem delete_after_enter (s : TextBlock) (line : List Char)
    (hline : s.lines[s.cursor.y]? = some line) (hy : s.cursor.y < s.lines.length) :
    delete { s with
             lines := push_at s.lines (s.cursor.y + 1) ([]),
             cursor := ⟨0, s.cursor.y + 1⟩ } =
      some { s with cursor := ⟨line.length, s.cursor.y⟩ } := by
  have hle : s.cursor.y + 1 ≤ s.lines.length := hy
  have hempty : (push_at s.lines (s.cursor.y + 1) [])[s.cursor.y + 1]? =
      some ([] : List Char) :=
    getElem?_push_at_self s.lines (s.cursor.y + 1) [] hle
  have hdest : (push_at s.lines (s.cursor.y + 1) [])[s.cursor.y]? = some line := by
    rw [getElem?_push_at_lt s.lines (s.cursor.y + 1) s.cursor.y [] (Nat.lt_succ_self _) hle]
    exact hline
  have happ : append_to_prev_line (push_at s.lines (s.cursor.y + 1) [])
      (s.cursor.y + 1) = some s.lines := by
    unfold append_to_prev_line
    rw [if_neg (Nat.succ_ne_zero s.cursor.y)]
    rw [remove_at_push_at s.lines (s.cursor.y + 1) [] hle]
    simp only [Nat.add_sub_cancel, hline]
    rw [List.append_nil, set_getElem?_eq s.lines s.cursor.y line hline]
  have hpos1 : get_cursor_pos { s with
      lines := push_at s.lines (s.cursor.y + 1) ([]),
      cursor := ⟨0, s.cursor.y + 1⟩ } = some (0, s.cursor.y + 1) := by
    simp [get_cursor_pos, hempty]
  have hsub : subtract_cursor_pos (push_at s.lines (s.cursor.y + 1) [])
      (0, s.cursor.y + 1) =
      (((get_line_len (push_at s.lines (s.cursor.y + 1) []) s.cursor.y).getD 0) - 1,
       s.cursor.y) := rfl
  simp only [delete, hpos1, hsub, Nat.lt_irrefl, if_false]
  simp only [Nat.lt_succ_self, if_pos, hdest, happ]

/-- C3 counterexample: on the line foo bar with the cursor at column 5
(inside the token bar, whose range is 4 to 7), the lookup returns the start
of bar (offset 4), while the right-most token lying fully left of column 5
(stop offset at most 5) is foo, whose start is 0 — so the claimed
characterization by stop offsets disagrees with the code. -/
theorem c3_counterexample_prev_word_start :
    get_prev_word_start ['f', 'o', 'o', ' ', 'b', 'a', 'r'] 5 = some 4 ∧
    (((word_regex_tokens ['f', 'o', 'o', ' ', 'b', 'a', 'r'] 0).filter
        (fun t => t.2 ≤ 5)).getLast?).map Prod.fst = some 0 := by
  constructor
  · simp +decide [get_prev_word_start, word_regex_tokens, charClass, isWordChar]
  · simp +decide [word_regex_tokens, charClass, isWordChar]

/-- C3 as amended: previous-word-start returns the start offset of the
right-most token of the line tokenization whose start lies strictly left of
the cursor column (that token may itself reach or cross the column), and
none when no token starts left of the column or when the column exceeds the
line length (the slice lookup fails there). -/
theorem c3_prev_word_start_amended (line : List Char) (x : Nat) :
    get_prev_word_start line x =
      if x ≤ line.length then
        (((word_regex_tokens line 0).filter (fun t => t.1 < x)).getLast?).map Prod.fst
      else Option.none := by
  unfold get_prev_word_start
  by_cases hx : x ≤ line.length
  · rw [if_pos hx, if_pos hx]
    have h := tokens_take line 0 x
    rw [Nat.zero_add] at h
    have h2 : ((word_regex_tokens (line.take x) 0).map Prod.fst).getLast? =
        (((word_regex_tokens line 0).filter (fun t => t.1 < x)).map Prod.fst).getLast? := by
      rw [h]
    rw [List.getLast?_map, List.getLast?_map] at h2
    exact h2
  · rw [if_neg hx, if_neg hx]

/-- C4 counterexample: on the Document whose second line is empty (no
tokens), the three cross-line helpers at line 1 return none — not offset 0 —
and the e motion that consults them is a no-op rather than landing at
column 0 of that line. -/
theorem c4_counterexample_tokenless_none :
    get_first_word_end_at_line [['a'], []] 1 = Option.none ∧
    get_first_word_start_at_line [['a'], []] 1 = Option.none ∧
    get_last_word_start_at_line [['a'], []] 1 = Option.none ∧
    handle_key ⟨[['a'], []], ⟨0, 0⟩, ⟨9, 9⟩, ⟨0, 0⟩, ⟨0, 0⟩, Mode.normal⟩
      KeyModifiers.none (KeyCode.char 'e') =
      some (⟨[['a'], []], ⟨0, 0⟩, ⟨9, 9⟩, ⟨0, 0⟩, ⟨0, 0⟩, Mode.normal⟩, Option.none) := by
  refine ⟨?_, ?_, ?_, ?_⟩
  · simp [get_first_word_end_at_line, word_regex_tokens]
  · simp [get_first_word_start_at_line, word_regex_tokens]
  · simp [get_last_word_start_at_line, word_regex_tokens]
  · simp +decide [handle_key, handle_char_key, e_motion, get_next_word_end_tb,
      get_next_word_end, get_first_word_end_at_line, word_regex_tokens, charClass,
      isWordChar]

/-- C4 as amended: when line n exists but has no WORD_REGEX tokens, the
cross-line helpers report absence (none) rather than defaulting to offset 0,
and the wraparound word motions that consult them do not move the cursor to
that line: the b and e branches leave the state unchanged, and the w branch
keeps the cursor row (falling back to the next-word-end lookup on the
current line). -/
theorem c4_tokenless_line_helpers (lines : List (List Char)) (n : Nat) (l : List Char)
    (hline : lines[n]? = some l) (htok : word_regex_tokens l 0 = []) :
    get_first_word_end_at_line lines n = Option.none ∧
    get_first_word_start_at_line lines n = Option.none ∧
    get_last_word_start_at_line lines n = Option.none ∧
    (∀ s : TextBlock, s.mode = Mode.normal → s.lines = lines → n = s.cursor.y + 1 →
      get_next_word_end_tb s = Option.none →
      handle_key s KeyModifiers.none (KeyCode.char 'e') = some (s, Option.none)) ∧
    (∀ s : TextBlock, s.mode = Mode.normal → s.lines = lines → 0 < s.cursor.y →
      n = s.cursor.y - 1 → get_prev_word_start_tb s = Option.none →
      handle_key s KeyModifiers.none (KeyCode.char 'b') = some (s, Option.none)) ∧
    (∀ s : TextBlock, s.mode = Mode.normal → s.lines = lines → n = s.cursor.y + 1 →
      get_next_word_start_tb s = Option.none →
      (handle_key s KeyModifiers.none (KeyCode.char 'w')).map (fun r => r.1.cursor.y) =
        some s.cursor.y) := by
  refine ⟨?_, ?_, ?_, ?_, ?_, ?_⟩
  · simp only [get_first_word_end_at_line, hline, htok]
    rfl
  · simp only [get_first_word_start_at_line, hline, htok]
    rfl
  · simp only [get_last_word_start_at_line, hline, htok]
    rfl
  · intro s hm hl hn hnwe
    have hf : get_first_word_end_at_line s.lines (s.cursor.y + 1) = Option.none := by
      rw [hl, ← hn]
      simp only [get_first_word_end_at_line, hline, htok]
      rfl
    have hk : handle_key s KeyModifiers.none (KeyCode.char 'e') = e_motion s := by
      simp +decide [handle_key, handle_char_key, hm]
    rw [hk]
    simp only [e_motion, hnwe, hf]
  · intro s hm hl hy0 hn hpws
    have hlast : get_last_word_start_at_line s.lines (s.cursor.y - 1) = Option.none := by
      rw [hl, ← hn]
      simp only [get_last_word_start_at_line, hline, htok]
      rfl
    have hk : handle_key s KeyModifiers.none (KeyCode.char 'b') = b_motion s := by
      simp +decide [handle_key, handle_char_key, hm]
    rw [hk]
    simp only [b_motion, hpws, hlast, if_neg (by omega : ¬ s.cursor.y = 0)]
  · intro s hm hl hn hnws
    have hfs : get_first_word_start_at_line s.lines (s.cursor.y + 1) = Option.none := by
      rw [hl, ← hn]
      simp only [get_first_word_start_at_line, hline, htok]
      rfl
    have hk : handle_key s KeyModifiers.none (KeyCode.char 'w') = w_motion s := by
      simp +decide [handle_key, handle_char_key, hm]
    rw [hk]
    simp only [w_motion, hnws, hfs]
    cases hW : get_next_word_end_tb s with
    | none => simp
    | some ce => simp

/-- C4 witness: the amended statement applied to the concrete Document with
an empty line at index 1. -/
theorem c4_tokenless_line_helpers_witness :
    get_first_word_end_at_line [['a'], []] 1 = Option.none ∧
    get_first_word_start_at_line [['a'], []] 1 = Option.none ∧
    get_last_word_start_at_line [['a'], []] 1 = Option.none := by
  have h := c4_tokenless_line_helpers [['a'], []] 1 [] (by decide)
    (by simp [word_regex_tokens])
  exact ⟨h.1, h.2.1, h.2.2.1⟩

/-- C5: Enter at the end of a line of length L followed immediately by
Backspace restores the Document to its pre-Enter line sequence and leaves
the cursor at (row, L). The cursor sits at the end of the line exactly when
its clamped column is the line length, that is when the raw column is at
least the line length. -/
theorem c5_enter_then_backspace_roundtrip (s : TextBlock) (line : List Char)
    (hline : s.lines[s.cursor.y]? = some line) (hx : line.length ≤ s.cursor.x) :
    (new_line s).bind delete = some { s with cursor := ⟨line.length, s.cursor.y⟩ } := by
  have hy : s.cursor.y < s.lines.length := (List.getElem?_eq_some_iff.mp hline).1
  have hxmin : min s.cursor.x line.length = line.length := by omega
  have hpos : get_cursor_pos s = some (line.length, s.cursor.y) := by
    simp [get_cursor_pos, hline, hxmin]
  have hnl : new_line s = some { s with
      lines := push_at s.lines (s.cursor.y + 1) ([]),
      cursor := ⟨0, s.cursor.y + 1⟩ } := by
    simp [new_line, hpos, hline, Nat.lt_irrefl]
  rw [hnl, Option.some_bind]
  exact delete_after_enter s line hline hy

/-- C5 witness: Enter at the end of the line ab (length 2) followed by
Backspace restores the single line and puts the cursor at column 2. -/
theorem c5_enter_then_backspace_roundtrip_witness :
    (new_line ⟨[['a', 'b']], ⟨0, 0⟩, ⟨9, 9⟩, ⟨2, 0⟩, ⟨0, 0⟩, Mode.insert⟩).bind delete =
      some ⟨[['a', 'b']], ⟨0, 0⟩, ⟨9, 9⟩, ⟨2, 0⟩, ⟨0, 0⟩, Mode.insert⟩ := by
  have h := c5_enter_then_backspace_roundtrip
    ⟨[['a', 'b']], ⟨0, 0⟩, ⟨9, 9⟩, ⟨2, 0⟩, ⟨0, 0⟩, Mode.insert⟩ ['a', 'b'] (by decide)
    (by decide)
  simpa using h

/-- C6: Right motion (`l` or the Right arrow) in Normal mode stores the
column max(min(column + 1, line length), previous column); the stored column
never decreases, and the clamped-at-read column (the spec reads columns
clamped to the line length) satisfies the same equation over clamped values,
never decreases, and never exceeds the current line length. -/
theorem c6_right_motion_monotonic (s : TextBlock) (line : List Char)
    (hline : s.lines[s.cursor.y]? = some line) (hmode : s.mode = Mode.normal) :
    handle_key s KeyModifiers.none KeyCode.right =
      some ({ s with cursor := ⟨max (min (s.cursor.x + 1) line.length) s.cursor.x,
                               s.cursor.y⟩ }, Option.none) ∧
    handle_key s KeyModifiers.none (KeyCode.char 'l') =
      some ({ s with cursor := ⟨max (min (s.cursor.x + 1) line.length) s.cursor.x,
                               s.cursor.y⟩ }, Option.none) ∧
    s.cursor.x ≤ max (min (s.cursor.x + 1) line.length) s.cursor.x ∧
    min (max (min (s.cursor.x + 1) line.length) s.cursor.x) line.length =
      max (min (min s.cursor.x line.length + 1) line.length)
        (min s.cursor.x line.length) ∧
    min s.cursor.x line.length ≤
      min (max (min (s.cursor.x + 1) line.length) s.cursor.x) line.length ∧
    min (max (min (s.cursor.x + 1) line.length) s.cursor.x) line.length ≤
      line.length := by
  refine ⟨?_, ?_, ?_, ?_, ?_, ?_⟩
  · simp [handle_key, move_right, hline]
  · simp +decide [handle_key, handle_char_key, hmode, move_right, hline]
  · omega
  · omega
  · omega
  · omega

/-- C6 witness: on line ab with the cursor at column 1, Right moves the
cursor to column 2. -/
theorem c6_right_motion_monotonic_witness :
    handle_key ⟨[['a', 'b']], ⟨0, 0⟩, ⟨9, 9⟩, ⟨1, 0⟩, ⟨0, 0⟩, Mode.normal⟩
      KeyModifiers.none KeyCode.right =
      some (⟨[['a', 'b']], ⟨0, 0⟩, ⟨9, 9⟩, ⟨2, 0⟩, ⟨0, 0⟩, Mode.normal⟩, Option.none) := by
  have h := c6_right_motion_monotonic
    ⟨[['a', 'b']], ⟨0, 0⟩, ⟨9, 9⟩, ⟨1, 0⟩, ⟨0, 0⟩, Mode.normal⟩ ['a', 'b'] (by decide) rfl
  simpa using h.1

/-- C7: split line (Enter in Insert mode): writing x for the clamped cursor
column, if x is strictly inside the line then the head keeps the row and the
tail becomes a new line below; otherwise an empty line is inserted below.
All other lines are untouched and the cursor moves to the start of the next
row. -/
theorem c7_new_line_split (s : TextBlock) (line : List Char)
    (hline : s.lines[s.cursor.y]? = some line) :
    (min s.cursor.x line.length < line.length →
      new_line s = some { s with
        lines := s.lines.take s.cursor.y ++ [line.take (min s.cursor.x line.length)] ++
          [line.drop (min s.cursor.x line.length)] ++ s.lines.drop (s.cursor.y + 1),
        cursor := ⟨0, s.cursor.y + 1⟩ }) ∧
    (line.length ≤ min s.cursor.x line.length →
      new_line s = some { s with
        lines := s.lines.take (s.cursor.y + 1) ++ [[]] ++ s.lines.drop (s.cursor.y + 1),
        cursor := ⟨0, s.cursor.y + 1⟩ }) := by
  have hy : s.cursor.y < s.lines.length := (List.getElem?_eq_some_iff.mp hline).1
  have hpos : get_cursor_pos s = some (min s.cursor.x line.length, s.cursor.y) := by
    simp [get_cursor_pos, hline]
  constructor
  · intro hlt
    simp only [new_line, hpos, hline, if_pos hlt]
    rw [push_at_set s.lines s.cursor.y _ _ hy]
  · intro hge
    have hnot : ¬ min s.cursor.x line.length < line.length := by omega
    simp only [new_line, hpos, hline, if_neg hnot]
    simp [push_at]

/-- C7 witness: splitting the line abc at column 1 yields the lines a and
bc, with the cursor at the start of the new row. -/
theorem c7_new_line_split_witness :
    new_line ⟨[['a', 'b', 'c']], ⟨0, 0⟩, ⟨9, 9⟩, ⟨1, 0⟩, ⟨0, 0⟩, Mode.insert⟩ =
      some ⟨[['a'], ['b', 'c']], ⟨0, 0⟩, ⟨9, 9⟩, ⟨0, 1⟩, ⟨0, 0⟩, Mode.insert⟩ := by
  have h := c7_new_line_split
    ⟨[['a', 'b', 'c']], ⟨0, 0⟩, ⟨9, 9⟩, ⟨1, 0⟩, ⟨0, 0⟩, Mode.insert⟩ ['a', 'b', 'c'] (by decide)
  have h2 := h.1 (by decide)
  simpa using h2

/-- C8: on every render pass (TextBlock::render first calls scroll) the
horizontal scroll offset is fully recomputed as min(cursor column minus
effective width, current line length minus effective width), with
saturating subtraction. -/
theorem c8_scroll_horizontal_offset (s : TextBlock) (window_size : TermSize)
    (ew eh : Nat) (line : List Char)
    (heff : get_effective_size s window_size = some (ew, eh))
    (hline : s.lines[s.cursor.y]? = some line) :
    (scroll s window_size).map (fun t => t.offset.x) =
      some (min (s.cursor.x - ew) (line.length - ew)) := by
  simp only [scroll, heff, hline]
  simp

/-- C8 witness: a 100-character line, effective width 20, cursor column 50:
the recomputed horizontal offset is 30. -/
theorem c8_scroll_horizontal_offset_witness :
    (scroll ⟨[List.replicate 100 'a'], ⟨7, 0⟩, ⟨20, 5⟩, ⟨50, 0⟩, ⟨0, 0⟩, Mode.normal⟩
        ⟨20, 10⟩).map (fun t => t.offset.x) = some 30 := by
  have h := c8_scroll_horizontal_offset
    ⟨[List.replicate 100 'a'], ⟨7, 0⟩, ⟨20, 5⟩, ⟨50, 0⟩, ⟨0, 0⟩, Mode.normal⟩
    ⟨20, 10⟩ 20 5 (List.replicate 100 'a') (by decide) (by simp)
  simpa using h

/-- C9: for a Document with at least one line and a starting row in range,
the cursor row stays within range after any finite sequence of up and down
motions, and those motions never change the line contents. -/
theorem c9_vertical_motion_row_bounded (s : TextBlock) (ks : List VerticalKey)
    (hlen : 0 < s.lines.length) (hy : s.cursor.y < s.lines.length) :
    (apply_vertical_moves s ks).lines = s.lines ∧
    (apply_vertical_moves s ks).cursor.y < s.lines.length := by
  induction ks generalizing s with
  | nil => exact ⟨rfl, hy⟩
  | cons k ks ih =>
    cases k with
    | up =>
      have hstep : apply_vertical_moves s (VerticalKey.up :: ks) =
          apply_vertical_moves (goto_line s (s.cursor.y - 1)) ks := rfl
      have hl : (goto_line s (s.cursor.y - 1)).lines = s.lines := rfl
      have hy2 : (goto_line s (s.cursor.y - 1)).cursor.y <
          (goto_line s (s.cursor.y - 1)).lines.length := by
        simp only [goto_line, hl]
        simp
        omega
      obtain ⟨ha, hb⟩ := ih (goto_line s (s.cursor.y - 1)) (by rw [hl]; exact hlen) hy2
      rw [hstep, ha, hl]
      exact ⟨rfl, by rw [hl] at hb; exact hb⟩
    | down =>
      have hstep : apply_vertical_moves s (VerticalKey.down :: ks) =
          apply_vertical_moves (goto_line s (s.cursor.y + 1)) ks := rfl
      have hl : (goto_line s (s.cursor.y + 1)).lines = s.lines := rfl
      have hy2 : (goto_line s (s.cursor.y + 1)).cursor.y <
          (goto_line s (s.cursor.y + 1)).lines.length := by
        simp only [goto_line, hl]
        simp
        omega
      obtain ⟨ha, hb⟩ := ih (goto_line s (s.cursor.y + 1)) (by rw [hl]; exact hlen) hy2
      rw [hstep, ha, hl]
      exact ⟨rfl, by rw [hl] at hb; exact hb⟩

/-- Inversion helper: a key-handling arm that returns an unchanged line list
and no event satisfies the frame property. -/
theorem pair_frame_of_eq (s X : TextBlock) (ev : Option TextBlockEvent)
    (r : TextBlock × Option TextBlockEvent) (h : some (X, ev) = some r)
    (hX : X.lines = s.lines) (hev : ev = Option.none) :
    r.1.lines = s.lines ∧ r.2 = Option.none := by
  cases h
  exact ⟨hX, hev⟩

/-- Inversion helper: frame property plus a condition implied by the
presence of the emitted event. -/
theorem pair_frame_imp (s X : TextBlock) (ev : Option TextBlockEvent) (P : Prop)
    (r : TextBlock × Option TextBlockEvent) (h : some (X, ev) = some r)
    (hX : X.lines = s.lines) (himp : ev.isSome → P) :
    r.1.lines = s.lines ∧ (r.2.isSome → P) := by
  cases h
  exact ⟨hX, himp⟩

theorem move_left_frame (s : TextBlock) (r : TextBlock × Option TextBlockEvent)
    (h : move_left s = some r) : r.1.lines = s.lines ∧ r.2 = Option.none := by
  unfold move_left at h
  cases hl : s.lines[s.cursor.y]? with
  | none => rw [hl] at h; simp at h
  | some line => rw [hl] at h; exact pair_frame_of_eq s _ _ r h rfl rfl

theorem move_right_frame (s : TextBlock) (r : TextBlock × Option TextBlockEvent)
    (h : move_right s = some r) : r.1.lines = s.lines ∧ r.2 = Option.none := by
  unfold move_right at h
  cases hl : s.lines[s.cursor.y]? with
  | none => rw [hl] at h; simp at h
  | some line => rw [hl] at h; exact pair_frame_of_eq s _ _ r h rfl rfl

theorem b_motion_frame (s : TextBlock) (r : TextBlock × Option TextBlockEvent)
    (h : b_motion s = some r) : r.1.lines = s.lines ∧ r.2 = Option.none := by
  unfold b_motion at h
  repeat' split at h
  all_goals exact pair_frame_of_eq s _ _ r h rfl rfl

theorem e_motion_frame (s : TextBlock) (r : TextBlock × Option TextBlockEvent)
    (h : e_motion s = some r) : r.1.lines = s.lines ∧ r.2 = Option.none := by
  unfold e_motion at h
  repeat' split at h
  all_goals exact pair_frame_of_eq s _ _ r h rfl rfl

theorem w_motion_frame (s : TextBlock) (r : TextBlock × Option TextBlockEvent)
    (h : w_motion s = some r) : r.1.lines = s.lines ∧ r.2 = Option.none := by
  unfold w_motion at h
  repeat' split at h
  all_goals exact pair_frame_of_eq s _ _ r h rfl rfl

/-- Frame property of the Char arms: key handling never rewrites the shared
line list, and an edit intent is only ever emitted from Insert mode. -/
theorem handle_char_key_frame (s : TextBlock) (mods : KeyModifiers) (c : Char)
    (r : TextBlock × Option TextBlockEvent) (h : handle_char_key s mods c = some r) :
    r.1.lines = s.lines ∧ (r.2.isSome → s.mode = Mode.insert) := by
  unfold handle_char_key at h
  split at h
  · repeat' split at h
    all_goals first
      | exact ⟨(move_left_frame s r h).1, by simp [(move_left_frame s r h).2]⟩
      | exact ⟨(move_right_frame s r h).1, by simp [(move_right_frame s r h).2]⟩
      | exact ⟨(b_motion_frame s r h).1, by simp [(b_motion_frame s r h).2]⟩
      | exact ⟨(e_motion_frame s r h).1, by simp [(e_motion_frame s r h).2]⟩
      | exact ⟨(w_motion_frame s r h).1, by simp [(w_motion_frame s r h).2]⟩
      | exact pair_frame_imp s _ _ _ r h rfl (by simp)
  · rename_i heq
    split at h
    all_goals exact pair_frame_imp s _ _ _ r h rfl (fun _ => heq)
  · exact pair_frame_imp s _ _ _ r h rfl (by simp)

/-- Frame property of TextBlock::handle_key: the shared line list is never
rewritten by key handling itself, and the Char, NewLine and Delete edit
intents are only emitted in Insert mode. -/
theorem handle_key_frame (s : TextBlock) (mods : KeyModifiers) (code : KeyCode)
    (r : TextBlock × Option TextBlockEvent) (h : handle_key s mods code = some r) :
    r.1.lines = s.lines ∧ (r.2.isSome → s.mode = Mode.insert) := by
  unfold handle_key at h
  split at h
  · split at h
    · exact ⟨(move_left_frame s r h).1, by simp [(move_left_frame s r h).2]⟩
    · exact pair_frame_imp s _ _ _ r h rfl (by simp)
  · split at h
    · exact ⟨(move_right_frame s r h).1, by simp [(move_right_frame s r h).2]⟩
    · exact pair_frame_imp s _ _ _ r h rfl (by simp)
  · split at h <;> exact pair_frame_imp s _ _ _ r h rfl (by simp)
  · split at h <;> exact pair_frame_imp s _ _ _ r h rfl (by simp)
  · exact handle_char_key_frame s mods _ r h
  · split at h
    · split at h <;> exact pair_frame_imp s _ _ _ r h rfl (by simp)
    · split at h <;> exact pair_frame_imp s _ _ _ r h rfl (by simp)
    · exact pair_frame_imp s _ _ _ r h rfl (by simp)
  · split at h
    · rename_i heq
      split at h <;> exact pair_frame_imp s _ _ _ r h rfl (fun _ => heq)
    all_goals exact pair_frame_imp s _ _ _ r h rfl (by simp)
  · split at h
    · rename_i heq
      split at h <;> exact pair_frame_imp s _ _ _ r h rfl (fun _ => heq)
    all_goals exact pair_frame_imp s _ _ _ r h rfl (by simp)
  · exact pair_frame_imp s _ _ _ r h rfl (by simp)

/-- Editor::update_command never touches the line list. -/
theorem update_command_lines (s : TextBlock) (e : Event) :
    (update_command s e).lines = s.lines := by
  cases e with
  | key mods code => cases code <;> rfl
  | paste => rfl
  | other => rfl

/-- C10: while the view is in Normal or Command mode, processing any input
event leaves the shared Document lines unchanged, and key handling never
emits an edit intent (Char, NewLine and Delete intents arise only in Insert
mode), so document mutation happens only on the Insert-mode path of
Editor::update. -/
theorem c10_no_edit_outside_insert (s : TextBlock) (e : Event)
    (hm : s.mode = Mode.normal ∨ s.mode = Mode.command) :
    (∀ s2, editor_update s e = some s2 → s2.lines = s.lines) ∧
    (∀ mods code r, handle_key s mods code = some r → r.2 = Option.none) := by
  have hnotins : s.mode ≠ Mode.insert := by
    rcases hm with hm | hm <;> simp [hm]
  constructor
  · intro s2 h
    unfold editor_update at h
    split at h
    · cases h
      exact update_command_lines s e
    · cases e with
      | key mods code =>
        have htb : tb_update s (Event.key mods code) = handle_key s mods code := rfl
        rw [htb] at h
        rcases hh : handle_key s mods code with _ | ⟨s1, ev⟩
        · rw [hh] at h
          simp at h
        · rw [hh] at h
          have hfr := handle_key_frame s mods code (s1, ev) hh
          have hev : ev = Option.none := by
            cases hev2 : ev with
            | none => rfl
            | some x => exact absurd (hfr.2 (by simp [hev2])) hnotins
          subst hev
          simp at h
          rw [← h]
          exact hfr.1
      | paste =>
        have htb : tb_update s Event.paste = some (s, Option.none) := rfl
        rw [htb] at h
        simp at h
        rw [← h]
      | other =>
        have htb : tb_update s Event.other = some (s, Option.none) := rfl
        rw [htb] at h
        simp at h
        rw [← h]
  · intro mods code r h
    have hfr := handle_key_frame s mods code r h
    cases hr : r.2 with
    | none => rfl
    | some ev => exact absurd (hfr.2 (by simp [hr])) hnotins

/-- C10 witness: in Normal mode the j key moves the cursor down and leaves
the two-line Document unchanged. -/
theorem c10_no_edit_outside_insert_witness :
    (editor_update ⟨[['a'], ['b']], ⟨0, 0⟩, ⟨9, 9⟩, ⟨0, 0⟩, ⟨0, 0⟩, Mode.normal⟩
        (Event.key KeyModifiers.none (KeyCode.char 'j'))).map TextBlock.lines =
      some [['a'], ['b']] := by
  have happ : editor_update ⟨[['a'], ['b']], ⟨0, 0⟩, ⟨9, 9⟩, ⟨0, 0⟩, ⟨0, 0⟩, Mode.normal⟩
      (Event.key KeyModifiers.none (KeyCode.char 'j')) =
      some ⟨[['a'], ['b']], ⟨0, 0⟩, ⟨9, 9⟩, ⟨0, 1⟩, ⟨0, 0⟩, Mode.normal⟩ := by decide
  have hl := (c10_no_edit_outside_insert
    ⟨[['a'], ['b']], ⟨0, 0⟩, ⟨9, 9⟩, ⟨0, 0⟩, ⟨0, 0⟩, Mode.normal⟩
    (Event.key KeyModifiers.none (KeyCode.char 'j')) (Or.inl rfl)).1 _ happ
  rw [happ]
  exact congrArg some hl

/-- C9 witness: from row 1 of a two-line Document, the sequence down, down,
up keeps the row in range and the lines unchanged. -/
theorem c9_vertical_motion_row_bounded_witness :
    (apply_vertical_moves ⟨[['a'], ['b']], ⟨0, 0⟩, ⟨9, 9⟩, ⟨0, 1⟩, ⟨0, 0⟩, Mode.normal⟩
        [VerticalKey.down, VerticalKey.down, VerticalKey.up]).lines = [['a'], ['b']] ∧
    (apply_vertical_moves ⟨[['a'], ['b']], ⟨0, 0⟩, ⟨9, 9⟩, ⟨0, 1⟩, ⟨0, 0⟩, Mode.normal⟩
        [VerticalKey.down, VerticalKey.down, VerticalKey.up]).cursor.y < 2 := by
  have h := c9_vertical_motion_row_bounded
    ⟨[['a'], ['b']], ⟨0, 0⟩, ⟨9, 9⟩, ⟨0, 1⟩, ⟨0, 0⟩, Mode.normal⟩
    [VerticalKey.down, VerticalKey.down, VerticalKey.up] (by decide) (by decide)
  exact h

end Chai

